import Mathlib

/-!
Verification of the SNOW peak-refinement pipeline
(`porespy/network_extraction/__snow__.py`).

The embedding models 2-D images. A boolean image (numpy bool array) is a
`List Cell` holding the cells whose value is `True`; a scalar field
(the distance transform `dt`) is a function `Cell → α` for a linearly
ordered commutative ring α of exact values (any subring of ℝ; the concrete
instances below use ℤ); a `Grid` carries the array shape.  External
collaborators (scipy/skimage primitives) are embedded by their documented
contracts:

* `scipy.ndimage.maximum_filter(a, footprint=disk(r))` with the default
  `reflect` boundary mode: for a centrally symmetric convex footprint such as
  `skimage.morphology.disk(r)`, a reflected out-of-bounds position always maps
  to an in-bounds position that the footprint also covers, so the filter
  equals the maximum over the in-bounds part of the footprint.  That in-bounds
  maximum is what `mxAt` computes.
* `scipy.ndimage.binary_dilation(a, structure=cube(3))` on a window slice:
  one step of 8-neighbourhood dilation, clipped to the window (`dilate_cube3`).
* `scipy.ndimage.label` / `find_objects` / `center_of_mass`:
  connected-component labelling in first-encounter row-major order
  (`componentsOf`), per-component bounding boxes (`bboxOf`), and integer-floored
  centroids (`centroidOf`; `astype(int)` on non-negative values is a floor,
  which on exact rationals is ℕ division).
* `scipy.spatial.cKDTree(...).query(x, k=2)`: for each point, the nearest
  other point and the distance to it (`nnOf`); a real comparison
  `sqrt d2 < v` is embedded as `0 < v ∧ d2 < v*v` (`sqrtLtB`).  With a single
  point the missing neighbour has infinite distance, embedded as `none`.
-/

abbrev Cell := ℕ × ℕ

/-- Shape of a 2-D array. -/
structure Grid where
  rows : ℕ
  cols : ℕ

def Grid.inGridB (g : Grid) (c : Cell) : Bool :=
  decide (c.1 < g.rows) && decide (c.2 < g.cols)

/-- All cells of the array in row-major (scan) order. -/
def cellsList (g : Grid) : List Cell :=
  (List.range g.rows).flatMap fun i => (List.range g.cols).map fun j => (i, j)

/-- Maximum of a list of field values (`sp.amax`); 0 on the empty list, which
the source never hits. -/
def maxQ {α : Type} [LinearOrderedCommRing α] : List α → α
  | [] => 0
  | h :: t => t.foldl max h

/-- The biased field `dt + 2*(~im)` of `find_peaks`, with `im = dt > 0`. -/
def biased {α : Type} [LinearOrderedCommRing α] (dt : Cell → α) (c : Cell) :
    α :=
  if 0 < dt c then dt c else dt c + 2

/-- The in-bounds part of the `disk(r)` footprint centred at `c`
(`skimage.morphology.disk(r)` covers offsets with `x² + y² ≤ r²`). -/
def diskNbhd (g : Grid) (r : ℕ) (c : Cell) : List Cell :=
  (cellsList g).filter fun y =>
    decide (((y.1 : ℤ) - c.1) ^ 2 + ((y.2 : ℤ) - c.2) ^ 2 ≤ (r : ℤ) ^ 2)

/-- `mx = spim.maximum_filter(dt + 2*(~im), footprint=disk(r))` at cell `c`
(reflect mode; equals the in-bounds footprint maximum, see the header note). -/
def mxAt {α : Type} [LinearOrderedCommRing α] (g : Grid) (dt : Cell → α)
    (r : ℕ) (c : Cell) : α :=
  maxQ ((diskNbhd g r c).map (biased dt))

/-- `find_peaks(dt, r)`: `peaks = (dt == mx) * im` with `im = dt > 0`. -/
def find_peaks {α : Type} [LinearOrderedCommRing α] (g : Grid)
    (dt : Cell → α) (r : ℕ) : List Cell :=
  (cellsList g).filter fun c => decide (dt c = mxAt g dt r c) && decide (0 < dt c)

/-- The local-maximum test the spec claims for `find_peaks`: `dt[x]` equals the
maximum of the *unbiased* `dt` over the neighbourhood.  Stated from the
spec's words, to be compared against `find_peaks`. -/
def unbiasedLocalMax {α : Type} [LinearOrderedCommRing α] (g : Grid)
    (dt : Cell → α) (r : ℕ) (c : Cell) : Bool :=
  (diskNbhd g r c).all fun y => decide (dt y ≤ dt c)

/-! ### Connected-component labelling (`scipy.ndimage.label`, `find_objects`) -/

/-- 8-neighbourhood offsets (`cube(3)` / `square(3)` structuring element). -/
def off8 : List (ℤ × ℤ) :=
  [(-1, -1), (-1, 0), (-1, 1), (0, -1), (0, 1), (1, -1), (1, 0), (1, 1)]

/-- 4-neighbourhood offsets (the cross, `spim.label`'s default structure). -/
def off4 : List (ℤ × ℤ) := [(-1, 0), (0, -1), (0, 1), (1, 0)]

def shiftCell (c : Cell) (o : ℤ × ℤ) : Option Cell :=
  let r := (c.1 : ℤ) + o.1
  let s := (c.2 : ℤ) + o.2
  if 0 ≤ r ∧ 0 ≤ s then some (r.toNat, s.toNat) else none

def nbhdOf (offs : List (ℤ × ℤ)) (c : Cell) : List Cell :=
  offs.filterMap (shiftCell c)

def bfs_step (g : Grid) (offs : List (ℤ × ℤ)) (mask : List Cell)
    (visited frontier : List Cell) : List Cell :=
  ((frontier.flatMap (nbhdOf offs)).filter fun x =>
    g.inGridB x && decide (x ∈ mask) && !(decide (x ∈ visited))).dedup

def bfs_aux (g : Grid) (offs : List (ℤ × ℤ)) (mask : List Cell) :
    ℕ → List Cell → List Cell → List Cell
  | 0, visited, _ => visited
  | n + 1, visited, frontier =>
    let nw := bfs_step g offs mask visited frontier
    if nw = [] then visited else bfs_aux g offs mask n (visited ++ nw) nw

/-- The connected component of the true cell `c` in `mask`. -/
def componentOf (g : Grid) (offs : List (ℤ × ℤ)) (mask : List Cell) (c : Cell) :
    List Cell :=
  bfs_aux g offs mask (g.rows * g.cols) [c] [c]

/-- `spim.label`: the connected components of `mask`, one `List Cell` per label,
in first-encounter row-major order (label `i+1` is entry `i`). -/
def componentsOf (g : Grid) (offs : List (ℤ × ℤ)) (mask : List Cell) :
    List (List Cell) :=
  (cellsList g).foldl
    (fun comps c =>
      if decide (c ∈ mask) && !(comps.any fun comp => decide (c ∈ comp)) then
        comps ++ [componentOf g offs mask c]
      else comps)
    []

/-- `spim.find_objects`: the bounding box of one component, as
`((rmin, cmin), (rmax, cmax))` with inclusive bounds. -/
def bboxOf (comp : List Cell) : (ℕ × ℕ) × (ℕ × ℕ) :=
  match comp with
  | [] => ((0, 0), (0, 0))
  | h :: t =>
    t.foldl
      (fun bb c =>
        ((min bb.1.1 c.1, min bb.1.2 c.2), (max bb.2.1 c.1, max bb.2.2 c.2)))
      (h, h)

def inBboxB (bb : (ℕ × ℕ) × (ℕ × ℕ)) (c : Cell) : Bool :=
  decide (bb.1.1 ≤ c.1) && decide (c.1 ≤ bb.2.1) &&
    decide (bb.1.2 ≤ c.2) && decide (c.2 ≤ bb.2.2)

/-! ### The saddle trimmer (`trim_saddle_points`) -/

/-- Modelled from the spec: `extend_slice` is called by `trim_saddle_points`
but its definition is not part of this file's source; per spec §4.2 step 1 it
is "the blob's bounding box padded by a fixed margin (default 10 voxels),
clamped to array bounds". -/
def extend_slice (g : Grid) (bb : (ℕ × ℕ) × (ℕ × ℕ)) (pad : ℕ) :
    (ℕ × ℕ) × (ℕ × ℕ) :=
  ((bb.1.1 - pad, bb.1.2 - pad),
   (min (bb.2.1 + pad) (g.rows - 1), min (bb.2.2 + pad) (g.cols - 1)))

def saddle_window (g : Grid) (comp : List Cell) : (ℕ × ℕ) × (ℕ × ℕ) :=
  extend_slice g (bboxOf comp) 10

def windowCells (g : Grid) (w : (ℕ × ℕ) × (ℕ × ℕ)) : List Cell :=
  (cellsList g).filter (inBboxB w)

/-- `spim.binary_dilation(input=d, structure=cube(3))` on the window slice `w`:
a cell is set iff it or one of its 8 neighbours (within the window) was set. -/
def dilate_cube3 (g : Grid) (w : (ℕ × ℕ) × (ℕ × ℕ)) (d : List Cell) : List Cell :=
  (windowCells g w).filter fun c =>
    decide (c ∈ d) || (nbhdOf off8 c).any fun x => inBboxB w x && decide (x ∈ d)

/-- `sp.amax(dt_i * peaks_dil)`: maximum over the window of the field masked by
the dilated region (cells outside the dilated region contribute 0). -/
def dilMaxQ {ι α : Type} [DecidableEq ι] [LinearOrderedCommRing α]
    (cells : List ι) (dt : ι → α) (d : List ι) : α :=
  maxQ (cells.map fun c => if c ∈ d then dt c else 0)

/-- `peaks_extended = (peaks_max == dt_i) * im_i` at one cell, with
`peaks_max = peaks_dil * amax(dt_i * peaks_dil)` and `im_i = dt_i > 0`. -/
def trialB {ι α : Type} [DecidableEq ι] [LinearOrderedCommRing α]
    (cells : List ι) (dt : ι → α) (d : List ι) (c : ι) : Bool :=
  decide (dt c = if c ∈ d then dilMaxQ cells dt d else 0) && decide (0 < dt c)

/-- `sp.all(peaks_extended == peaks_i)`: the trial mask equals the original
blob mask everywhere on the window. -/
def eqOrigB {ι α : Type} [DecidableEq ι] [LinearOrderedCommRing α]
    (cells : List ι) (dt : ι → α) (orig d : List ι) : Bool :=
  cells.all fun c => decide (trialB cells dt d c = decide (c ∈ orig))

/-- `sp.sum(peaks_extended * peaks_i) == 0`: the trial mask and the original
blob mask share no cell of the window. -/
def disjOrigB {ι α : Type} [DecidableEq ι] [LinearOrderedCommRing α]
    (cells : List ι) (dt : ι → α) (orig d : List ι) : Bool :=
  cells.all fun c => !(trialB cells dt d c && decide (c ∈ orig))

/-- The `while iters < max_iters` loop of `trim_saddle_points`, carrying the
dilated mask `d` (`peaks_dil`); returns the final `peaks_i` written back to the
window: the original blob on the keep paths, `[]` on the saddle path. -/
def saddleLoop {ι α : Type} [DecidableEq ι] [LinearOrderedCommRing α]
    (cells : List ι) (dt : ι → α) (dil : List ι → List ι) (orig : List ι) :
    ℕ → List ι → List ι
  | 0, _ => orig
  | n + 1, d =>
    let d2 := dil d
    if eqOrigB cells dt orig d2 then orig
    else if disjOrigB cells dt orig d2 then []
    else saddleLoop cells dt dil orig n d2

/-- The outcome test of iteration `k` (`k ≥ 1`), on the blob dilated `k`
times: `some true` = trial mask equals the blob (keep), `some false` = trial
mask disjoint from the blob (saddle, checked second), `none` = neither. -/
def blobHit {ι α : Type} [DecidableEq ι] [LinearOrderedCommRing α]
    (cells : List ι) (dt : ι → α) (dil : List ι → List ι) (orig : List ι)
    (k : ℕ) : Option Bool :=
  let d := dil^[k] orig
  if eqOrigB cells dt orig d then some true
  else if disjOrigB cells dt orig d then some false
  else none

/-- One turn of the `for i in range(N)` loop of `trim_saddle_points`: run the
growth loop for the blob `comp` and write the result back over the padded
window (`peaks[s] = peaks_i`). -/
def saddle_step {α : Type} [LinearOrderedCommRing α] (g : Grid)
    (dt : Cell → α) (comp : List Cell) (peaks : List Cell) : List Cell :=
  let w := saddle_window g comp
  let res := saddleLoop (windowCells g w) dt (dilate_cube3 g w) comp 10 comp
  peaks.filter (fun c => !(inBboxB w c)) ++ res

/-- `trim_saddle_points(peaks, dt, max_iters=10)` (blobs labelled with the
default cross structure). -/
def trim_saddle_points {α : Type} [LinearOrderedCommRing α] (g : Grid)
    (dt : Cell → α) (peaks : List Cell) : List Cell :=
  (componentsOf g off4 peaks).foldl (fun m comp => saddle_step g dt comp m) peaks

/-! ### The proximity merger (`trim_nearby_peaks`) -/

/-- `center_of_mass`, floored to integer coordinates
(`sp.floor` via `astype(int)` on non-negative values). -/
def centroidOf (comp : List Cell) : Cell :=
  ((comp.map Prod.fst).sum / comp.length, (comp.map Prod.snd).sum / comp.length)

/-- Squared Euclidean distance between two cells. -/
def dist2 (a b : Cell) : ℤ :=
  ((a.1 : ℤ) - b.1) ^ 2 + ((a.2 : ℤ) - b.2) ^ 2

/-- The real comparison `sqrt d2 < v` on exact data (`d2 ≥ 0`). -/
def sqrtLtB {α : Type} [LinearOrderedCommRing α] (d2 v : α) : Bool :=
  decide (0 < v) && decide (d2 < v * v)

/-- `tree.query(x=crds, k=2)` for point `i`: the nearest other point and the
squared distance to it; `none` when no other point exists (scipy reports an
infinite distance there, so the point is never contested). -/
def nnOf (crds : List Cell) (i : ℕ) : Option (ℕ × ℤ) :=
  (List.range crds.length).foldl
    (fun best j =>
      if j = i then best
      else
        let d := dist2 (crds.getD i (0, 0)) (crds.getD j (0, 0))
        match best with
        | none => some (j, d)
        | some (_, d0) => if d < d0 then some (j, d) else best)
    none

/-- `hits = sp.where(dist_to_neighbor < dist_to_solid)[0]`. -/
def hitsOf {α : Type} [LinearOrderedCommRing α] (crds : List Cell)
    (dts : List α) : List ℕ :=
  (List.range crds.length).filter fun i =>
    match nnOf crds i with
    | some (_, d2) => sqrtLtB (d2 : α) (dts.getD i 0)
    | none => false

/-- The body of the drop loop: the peak appended for the contested peak `i` —
`i` itself if its distance to solid is strictly below its nearest
neighbour's, else that neighbour. -/
def dropChoice {α : Type} [LinearOrderedCommRing α] (crds : List Cell)
    (dts : List α) (i : ℕ) : ℕ :=
  match nnOf crds i with
  | some (j, _) => if dts.getD i 0 < dts.getD j 0 then i else j
  | none => i

/-- `drop_peaks = sp.unique(drop_peaks)` after the drop loop. -/
def dropSetOf {α : Type} [LinearOrderedCommRing α] (crds : List Cell)
    (dts : List α) : List ℕ :=
  ((hitsOf crds dts).map (dropChoice crds dts)).dedup

/-- Centroids of the labelled blobs of `peaks` (`crds`, floored to ints). -/
def crdsOf (g : Grid) (peaks : List Cell) : List Cell :=
  (componentsOf g off8 peaks).map centroidOf

/-- `dist_to_solid = dt[list(crds.T)]`. -/
def dtsOf {α : Type} [LinearOrderedCommRing α] (g : Grid)
    (peaks : List Cell) (dt : Cell → α) : List α :=
  (crdsOf g peaks).map dt

/-- `trim_nearby_peaks(peaks, dt)`.  Labels with `cube(3)`, computes centroid
coordinates, drops the weaker of each contested pair, and zeroes each dropped
blob's bounding box (`peaks[slices[s]] = 0`), returning `peaks > 0`.
With zero labelled peaks, `sp.vstack([])` of the empty centroid list raises
`ValueError`, embedded as `Except.error`. -/
def trim_nearby_peaks {α : Type} [LinearOrderedCommRing α] (g : Grid)
    (peaks : List Cell) (dt : Cell → α) : Except String (List Cell) :=
  match componentsOf g off8 peaks with
  | [] => .error "need at least one array to concatenate"
  | _ :: _ =>
    let comps := componentsOf g off8 peaks
    let crds := comps.map centroidOf
    let dts := crds.map dt
    let drops := dropSetOf crds dts
    .ok (peaks.filter fun c =>
      !(drops.any fun i => inBboxB (bboxOf (comps.getD i [])) c))

/-- The `snow` pipeline after the distance transform and optional Gaussian
smoothing (both external collaborators) have produced `dt`: find peaks, trim
saddle points, trim nearby peaks, and relabel the survivors into the output
marker components. -/
def snow {α : Type} [LinearOrderedCommRing α] (g : Grid) (dt : Cell → α) :
    Except String (List (List Cell)) := do
  let p1 := find_peaks g dt 4
  let p2 := trim_saddle_points g dt p1
  let p3 ← trim_nearby_peaks g p2 dt
  pure (componentsOf g off4 p3)

/-- The merge-trigger violation check from the spec's invariant (§3): some two
distinct surviving peak centroids lie closer to each other than both their
distances to solid.  Stated from the spec's words, to be compared with what
`trim_nearby_peaks` guarantees. -/
def survivorsViolate {α : Type} [LinearOrderedCommRing α] (g : Grid)
    (dt : Cell → α) (m : List Cell) : Bool :=
  let crds := crdsOf g m
  (List.range crds.length).any fun i =>
    (List.range crds.length).any fun j =>
      decide (i ≠ j) &&
        sqrtLtB ((dist2 (crds.getD i (0, 0)) (crds.getD j (0, 0))) : α)
          (dt (crds.getD i (0, 0))) &&
        sqrtLtB ((dist2 (crds.getD i (0, 0)) (crds.getD j (0, 0))) : α)
          (dt (crds.getD j (0, 0)))

/-! ### Concrete inputs used by the counterexamples and witnesses -/

/-- A 2-D field with a single pore voxel of depth 1 at the centre of a 3×3
image: the voxel is the unbiased local maximum but the +2 solid bias beats
it in the maximum filter. -/
def exDt1 : Cell → ℤ := fun c => if c = (1, 1) then 1 else 0

/-- A 3×3 image with a single pore voxel of depth 5: a genuine peak that the
whole pipeline keeps. -/
def exDtW : Cell → ℤ := fun c => if c = (1, 1) then 5 else 0

/-- A 1×4 image with two single-voxel peaks 3 apart; each one's padded window
covers the whole image. -/
def exDt3 : Cell → ℤ :=
  fun c => if c = (0, 0) then 5 else if c = (0, 3) then 7 else 0

/-- The two-blob peak mask for `exDt3`. -/
def exP3 : List Cell := [(0, 0), (0, 3)]

def exG7 : Grid := ⟨3, 27⟩

/-- A 3×27 field: a flat ridge of depth 5 along row 0 and a single voxel of
the same depth at (2,13).  `find_peaks` returns both blobs; the second blob's
padded window covers columns 3–23 of row 0, so its write-back splits the
ridge blob in two. -/
def exDt7 : Cell → ℤ :=
  fun c => if c.1 = 0 ∨ c = (2, 13) then 5 else 0

/-- A 1×10 field with peaks at columns 0, 5 and 9 of depths 20, 1 and 21.
The shallow middle peak is everyone's nearest neighbour and is dropped, after
which the two deep survivors are 9 apart — closer than both their depths. -/
def exDt8 : Cell → ℤ :=
  fun c =>
    if c = (0, 0) then 20 else if c = (0, 5) then 1
    else if c = (0, 9) then 21 else 0

/-- The three-peak mask for `exDt8`. -/
def exP8 : List Cell := [(0, 0), (0, 5), (0, 9)]

/-- A 5×5 mask: a diagonal blob whose bounding box is the whole image, plus a
single-voxel blob at (0,4) inside that box. -/
def exP10 : List Cell := [(0, 0), (0, 4), (1, 1), (2, 2), (3, 3), (4, 4)]

/-- Field for `exP10`: the diagonal blob's centroid (2,2) is shallower (5)
than the corner blob's (9), so the diagonal blob is dropped — and clearing
its bounding box also erases the kept corner blob. -/
def exDt10 : Cell → ℤ :=
  fun c => if c = (2, 2) then 5 else if c = (0, 4) then 9 else 0

/-- A two-cell blob environment for the saddle-loop witness: the blob `[0]`
is the strict maximum of its dilated neighbourhood at the first iteration. -/
def exDtL : ℕ → ℤ := fun n => if n = 0 then 3 else 1

def exDilL : List ℕ → List ℕ := fun _ => [0, 1]

/-! ### Helper lemmas -/

theorem foldl_max_init {α : Type} [LinearOrderedCommRing α] (t : List α)
    (a : α) : a ≤ t.foldl max a := by
  induction t generalizing a with
  | nil => exact le_refl a
  | cons h tl ih => exact le_trans (le_max_left a h) (ih (max a h))

theorem foldl_max_mem {α : Type} [LinearOrderedCommRing α] {x : α}
    (t : List α) (a : α) (hx : x ∈ t) :
    x ≤ t.foldl max a := by
  induction t generalizing a with
  | nil => cases hx
  | cons h tl ih =>
    rcases List.mem_cons.mp hx with rfl | hx2
    · exact le_trans (le_max_right a x) (foldl_max_init tl (max a x))
    · exact ih (max a h) hx2

theorem foldl_max_le {α : Type} [LinearOrderedCommRing α] {b : α}
    (t : List α) (a : α) (ha : a ≤ b)
    (ht : ∀ x ∈ t, x ≤ b) : t.foldl max a ≤ b := by
  induction t generalizing a with
  | nil => exact ha
  | cons h tl ih =>
    exact ih (max a h) (max_le ha (ht h (List.mem_cons_self h tl)))
      (fun x hx => ht x (List.mem_cons_of_mem h hx))

theorem le_maxQ {α : Type} [LinearOrderedCommRing α] {x : α} {l : List α}
    (hx : x ∈ l) : x ≤ maxQ l := by
  cases l with
  | nil => cases hx
  | cons h t =>
    rcases List.mem_cons.mp hx with rfl | hx2
    · exact foldl_max_init t x
    · exact foldl_max_mem t h hx2

theorem maxQ_le {α : Type} [LinearOrderedCommRing α] {b : α} {l : List α}
    (hne : l ≠ []) (hb : ∀ x ∈ l, x ≤ b) :
    maxQ l ≤ b := by
  cases l with
  | nil => exact absurd rfl hne
  | cons h t =>
    exact foldl_max_le t h (hb h (List.mem_cons_self h t))
      (fun x hx => hb x (List.mem_cons_of_mem h hx))

theorem inBbox_foldl_of_inBbox (t : List Cell) (bb : (ℕ × ℕ) × (ℕ × ℕ))
    {c : Cell} (hc : inBboxB bb c = true) :
    inBboxB
      (t.foldl
        (fun bb x =>
          ((min bb.1.1 x.1, min bb.1.2 x.2), (max bb.2.1 x.1, max bb.2.2 x.2)))
        bb) c = true := by
  induction t generalizing bb with
  | nil => exact hc
  | cons h tl ih =>
    apply ih
    simp only [inBboxB, Bool.and_eq_true, decide_eq_true_eq] at hc ⊢
    exact ⟨⟨⟨le_trans (min_le_left _ _) hc.1.1.1,
      le_trans hc.1.1.2 (le_max_left _ _)⟩,
      le_trans (min_le_left _ _) hc.1.2⟩,
      le_trans hc.2 (le_max_left _ _)⟩

theorem inBbox_foldl_of_mem (t : List Cell) (bb : (ℕ × ℕ) × (ℕ × ℕ))
    {c : Cell} (hc : c ∈ t) :
    inBboxB
      (t.foldl
        (fun bb x =>
          ((min bb.1.1 x.1, min bb.1.2 x.2), (max bb.2.1 x.1, max bb.2.2 x.2)))
        bb) c = true := by
  induction t generalizing bb with
  | nil => cases hc
  | cons h tl ih =>
    rcases List.mem_cons.mp hc with rfl | hc2
    · simp only [List.foldl_cons]
      apply inBbox_foldl_of_inBbox
      simp only [inBboxB, Bool.and_eq_true, decide_eq_true_eq]
      exact ⟨⟨⟨min_le_right _ _, le_max_right _ _⟩, min_le_right _ _⟩,
        le_max_right _ _⟩
    · simp only [List.foldl_cons]
      exact ih _ hc2

theorem mem_bboxOf {comp : List Cell} {c : Cell} (hc : c ∈ comp) :
    inBboxB (bboxOf comp) c = true := by
  cases comp with
  | nil => cases hc
  | cons h t =>
    rcases List.mem_cons.mp hc with rfl | hc2
    · simp only [bboxOf]
      apply inBbox_foldl_of_inBbox
      simp only [inBboxB, Bool.and_eq_true, decide_eq_true_eq]
      exact ⟨⟨⟨le_refl _, le_refl _⟩, le_refl _⟩, le_refl _⟩
    · simp only [bboxOf]
      exact inBbox_foldl_of_mem t (h, h) hc2

theorem bfs_step_subset {g : Grid} {offs : List (ℤ × ℤ)} {mask : List Cell}
    {visited frontier : List Cell} {x : Cell}
    (hx : x ∈ bfs_step g offs mask visited frontier) : x ∈ mask := by
  have hx2 := List.mem_dedup.mp hx
  have hx3 := (List.mem_filter.mp hx2).2
  simp only [Bool.and_eq_true, decide_eq_true_eq] at hx3
  exact hx3.1.2

theorem bfs_aux_subset {g : Grid} {offs : List (ℤ × ℤ)} {mask : List Cell}
    (n : ℕ) (visited frontier : List Cell)
    (hv : ∀ y ∈ visited, y ∈ mask) {x : Cell}
    (hx : x ∈ bfs_aux g offs mask n visited frontier) : x ∈ mask := by
  induction n generalizing visited frontier with
  | zero => exact hv x hx
  | succ m ih =>
    simp only [bfs_aux] at hx
    by_cases hnw : bfs_step g offs mask visited frontier = []
    · rw [if_pos hnw] at hx
      exact hv x hx
    · rw [if_neg hnw] at hx
      refine ih _ _ ?_ hx
      intro y hy
      rcases List.mem_append.mp hy with hy1 | hy2
      · exact hv y hy1
      · exact bfs_step_subset hy2

theorem componentOf_subset {g : Grid} {offs : List (ℤ × ℤ)} {mask : List Cell}
    {c : Cell} (hc : c ∈ mask) {x : Cell}
    (hx : x ∈ componentOf g offs mask c) : x ∈ mask := by
  refine bfs_aux_subset _ [c] [c] ?_ hx
  intro y hy
  rcases List.mem_cons.mp hy with rfl | hy2
  · exact hc
  · cases hy2

theorem componentsOf_foldl_subset {g : Grid} {offs : List (ℤ × ℤ)}
    {mask : List Cell} (l : List Cell) (acc : List (List Cell))
    (hacc : ∀ comp ∈ acc, ∀ x ∈ comp, x ∈ mask) :
    ∀ comp ∈
      l.foldl
        (fun comps c =>
          if decide (c ∈ mask) && !(comps.any fun comp => decide (c ∈ comp))
          then comps ++ [componentOf g offs mask c]
          else comps)
        acc,
      ∀ x ∈ comp, x ∈ mask := by
  induction l generalizing acc with
  | nil => exact hacc
  | cons h t ih =>
    simp only [List.foldl_cons]
    by_cases hcond :
        (decide (h ∈ mask) &&
          !(acc.any fun comp => decide (h ∈ comp))) = true
    · rw [if_pos hcond]
      refine ih _ ?_
      intro comp hcomp x hx
      rcases List.mem_append.mp hcomp with hc1 | hc2
      · exact hacc comp hc1 x hx
      · have hcm : h ∈ mask := by
          simp only [Bool.and_eq_true, decide_eq_true_eq] at hcond
          exact hcond.1
        rcases List.mem_singleton.mp hc2 with rfl
        exact componentOf_subset hcm hx
    · rw [if_neg hcond]
      exact ih _ hacc

/-- Every cell of every labelled component is a true cell of the mask. -/
theorem componentsOf_subset {g : Grid} {offs : List (ℤ × ℤ)}
    {mask : List Cell} {comp : List Cell}
    (hcomp : comp ∈ componentsOf g offs mask) {x : Cell} (hx : x ∈ comp) :
    x ∈ mask :=
  componentsOf_foldl_subset (cellsList g) [] (by intro c hc; cases hc) comp
    hcomp x hx

/-- The growth loop only ever returns the original blob or the empty mask. -/
theorem saddleLoop_result {ι α : Type} [DecidableEq ι]
    [LinearOrderedCommRing α] (cells : List ι) (dt : ι → α)
    (dil : List ι → List ι) (orig : List ι) (n : ℕ) (d : List ι) :
    saddleLoop cells dt dil orig n d = orig ∨
      saddleLoop cells dt dil orig n d = [] := by
  induction n generalizing d with
  | zero => exact Or.inl rfl
  | succ m ih =>
    simp only [saddleLoop]
    by_cases h1 : eqOrigB cells dt orig (dil d) = true
    · rw [if_pos h1]; exact Or.inl rfl
    · rw [if_neg h1]
      by_cases h2 : disjOrigB cells dt orig (dil d) = true
      · rw [if_pos h2]; exact Or.inr rfl
      · rw [if_neg h2]; exact ih (dil d)

theorem mem_cellsList {g : Grid} {c : Cell} :
    c ∈ cellsList g ↔ c.1 < g.rows ∧ c.2 < g.cols := by
  constructor
  · intro h
    simp only [cellsList, List.mem_flatMap, List.mem_map, List.mem_range] at h
    rcases h with ⟨i, hi, j, hj, rfl⟩
    exact ⟨hi, hj⟩
  · intro h
    simp only [cellsList, List.mem_flatMap, List.mem_map, List.mem_range]
    exact ⟨c.1, h.1, c.2, h.2, rfl⟩

/-- A blob cell lies inside the blob's padded window. -/
theorem comp_mem_window (g : Grid) {comp : List Cell} {x : Cell}
    (hx : x ∈ comp) (hb : x.1 < g.rows ∧ x.2 < g.cols) :
    inBboxB (saddle_window g comp) x = true := by
  have hbb := mem_bboxOf hx
  simp only [inBboxB, Bool.and_eq_true, decide_eq_true_eq] at hbb ⊢
  simp only [saddle_window, extend_slice]
  refine ⟨⟨⟨?_, ?_⟩, ?_⟩, ?_⟩
  · omega
  · exact le_min (by omega) (by omega)
  · omega
  · exact le_min (by omega) (by omega)

theorem comp_mem_windowCells (g : Grid) {comp : List Cell} {x : Cell}
    (hx : x ∈ comp) (hb : x.1 < g.rows ∧ x.2 < g.cols) :
    x ∈ windowCells g (saddle_window g comp) := by
  refine List.mem_filter.mpr ⟨mem_cellsList.mpr hb, comp_mem_window g hx hb⟩

/-- A cell of a per-blob write-back result came from the state or the blob. -/
theorem saddle_step_mem {α : Type} [LinearOrderedCommRing α] {g : Grid}
    {dt : Cell → α} {comp m : List Cell}
    {c : Cell} (hc : c ∈ saddle_step g dt comp m) : c ∈ m ∨ c ∈ comp := by
  rcases List.mem_append.mp hc with h1 | h2
  · exact Or.inl (List.mem_filter.mp h1).1
  · rcases saddleLoop_result (windowCells g (saddle_window g comp)) dt
      (dilate_cube3 g (saddle_window g comp)) comp 10 comp with hr | hr
    · rw [hr] at h2
      exact Or.inr h2
    · rw [hr] at h2
      cases h2

theorem trim_saddle_foldl_subset {α : Type} [LinearOrderedCommRing α]
    {g : Grid} {dt : Cell → α} {p : List Cell}
    (comps : List (List Cell)) (m : List Cell)
    (hcomps : ∀ comp ∈ comps, ∀ x ∈ comp, x ∈ p) (hm : ∀ x ∈ m, x ∈ p) :
    ∀ c ∈ comps.foldl (fun m comp => saddle_step g dt comp m) m, c ∈ p := by
  induction comps generalizing m with
  | nil => exact hm
  | cons h t ih =>
    simp only [List.foldl_cons]
    refine ih _ (fun comp hcm x hx => hcomps comp (List.mem_cons_of_mem h hcm) x hx) ?_
    intro x hx
    rcases saddle_step_mem hx with h1 | h2
    · exact hm x h1
    · exact hcomps h (List.mem_cons_self h t) x h2

/-- `trim_saddle_points` only clears cells, it never sets one. -/
theorem trim_saddle_subset {α : Type} [LinearOrderedCommRing α] {g : Grid}
    {dt : Cell → α} {p : List Cell}
    {c : Cell} (hc : c ∈ trim_saddle_points g dt p) : c ∈ p := by
  refine trim_saddle_foldl_subset _ p ?_ (fun x hx => hx) c hc
  intro comp hcomp x hx
  exact componentsOf_subset hcomp hx

theorem trim_nearby_eq_filter {α : Type} [LinearOrderedCommRing α]
    {g : Grid} {p : List Cell} {dt : Cell → α}
    (h : componentsOf g off8 p ≠ []) :
    trim_nearby_peaks g p dt =
      .ok (p.filter fun c =>
        !((dropSetOf (crdsOf g p) (dtsOf g p dt)).any fun i =>
          inBboxB (bboxOf ((componentsOf g off8 p).getD i [])) c)) := by
  rcases hl : componentsOf g off8 p with _ | ⟨a, t⟩
  · exact absurd hl h
  · simp only [trim_nearby_peaks, hl, crdsOf, dtsOf]

theorem trim_nearby_ok_ne_nil {α : Type} [LinearOrderedCommRing α]
    {g : Grid} {p m : List Cell} {dt : Cell → α}
    (hok : trim_nearby_peaks g p dt = .ok m) : componentsOf g off8 p ≠ [] := by
  intro hc
  rw [trim_nearby_peaks, hc] at hok
  cases hok

theorem trim_nearby_ok_eq {α : Type} [LinearOrderedCommRing α] {g : Grid}
    {p m : List Cell} {dt : Cell → α}
    (hok : trim_nearby_peaks g p dt = .ok m) :
    m = p.filter fun c =>
      !((dropSetOf (crdsOf g p) (dtsOf g p dt)).any fun i =>
        inBboxB (bboxOf ((componentsOf g off8 p).getD i [])) c) := by
  have h2 := @trim_nearby_eq_filter α _ g p dt (trim_nearby_ok_ne_nil hok)
  rw [hok] at h2
  exact (Except.ok.injEq _ _ ▸ h2 : _)

theorem saddleLoop_hit_true {ι α : Type} [DecidableEq ι]
    [LinearOrderedCommRing α] (cells : List ι) (dt : ι → α)
    (dil : List ι → List ι) (orig : List ι) {k n : ℕ}
    (h : blobHit cells dt dil orig (k + 1) = some true) :
    saddleLoop cells dt dil orig (n + 1) (dil^[k] orig) = orig := by
  simp only [blobHit] at h
  by_cases h1 : eqOrigB cells dt orig (dil^[k + 1] orig) = true
  · simp only [saddleLoop]
    rw [show dil (dil^[k] orig) = dil^[k + 1] orig from
      (Function.iterate_succ_apply' dil k orig).symm, if_pos h1]
  · rw [if_neg h1] at h
    by_cases h2 : disjOrigB cells dt orig (dil^[k + 1] orig) = true
    · rw [if_pos h2] at h
      cases h
    · rw [if_neg h2] at h
      cases h

theorem saddleLoop_hit_false {ι α : Type} [DecidableEq ι]
    [LinearOrderedCommRing α] (cells : List ι) (dt : ι → α)
    (dil : List ι → List ι) (orig : List ι) {k n : ℕ}
    (h : blobHit cells dt dil orig (k + 1) = some false) :
    saddleLoop cells dt dil orig (n + 1) (dil^[k] orig) = [] := by
  simp only [blobHit] at h
  by_cases h1 : eqOrigB cells dt orig (dil^[k + 1] orig) = true
  · rw [if_pos h1] at h
    cases h
  · rw [if_neg h1] at h
    by_cases h2 : disjOrigB cells dt orig (dil^[k + 1] orig) = true
    · simp only [saddleLoop]
      rw [show dil (dil^[k] orig) = dil^[k + 1] orig from
        (Function.iterate_succ_apply' dil k orig).symm, if_neg h1, if_pos h2]
    · rw [if_neg h2] at h
      cases h

theorem saddleLoop_skip {ι α : Type} [DecidableEq ι]
    [LinearOrderedCommRing α] (cells : List ι) (dt : ι → α)
    (dil : List ι → List ι) (orig : List ι) {k n : ℕ}
    (h : blobHit cells dt dil orig (k + 1) = none) :
    saddleLoop cells dt dil orig (n + 1) (dil^[k] orig) =
      saddleLoop cells dt dil orig n (dil^[k + 1] orig) := by
  simp only [blobHit] at h
  by_cases h1 : eqOrigB cells dt orig (dil^[k + 1] orig) = true
  · rw [if_pos h1] at h
    cases h
  · rw [if_neg h1] at h
    by_cases h2 : disjOrigB cells dt orig (dil^[k + 1] orig) = true
    · rw [if_pos h2] at h
      cases h
    · simp only [saddleLoop]
      rw [show dil (dil^[k] orig) = dil^[k + 1] orig from
        (Function.iterate_succ_apply' dil k orig).symm, if_neg h1, if_neg h2]

theorem saddleLoop_shift {ι α : Type} [DecidableEq ι]
    [LinearOrderedCommRing α] (cells : List ι) (dt : ι → α)
    (dil : List ι → List ι) (orig : List ι) :
    ∀ (j n k : ℕ),
      (∀ i, k < i → i ≤ k + j → blobHit cells dt dil orig i = none) →
      saddleLoop cells dt dil orig (j + n) (dil^[k] orig) =
        saddleLoop cells dt dil orig n (dil^[k + j] orig) := by
  intro j
  induction j with
  | zero => intro n k _; rw [Nat.zero_add, Nat.add_zero]
  | succ m ih =>
    intro n k hnone
    have e1 : m + 1 + n = (m + n) + 1 := by omega
    rw [e1]
    have hstep := @saddleLoop_skip ι α _ _ cells dt dil orig k (m + n)
      (hnone (k + 1) (by omega) (by omega))
    rw [hstep]
    have e2 : k + (m + 1) = (k + 1) + m := by omega
    rw [e2]
    exact ih n (k + 1) (fun i hi1 hi2 => hnone i (by omega) (by omega))

/-! ### Claim theorems -/

/-- C1 (counterexample): the claimed characterisation of `find_peaks` fails.
On a 3×3 field whose only pore voxel has depth 1, that voxel is the maximum
of the unbiased field over its whole radius-4 disk neighbourhood and has
`dt > 0`, yet `find_peaks` does not return it: the solid voxels' +2 bias wins
the maximum filter.  So the +2 bias does change which pore voxels qualify. -/
theorem find_peaks_unbiased_false :
    decide ((1, 1) ∈ find_peaks ⟨3, 3⟩ exDt1 4) = false ∧
      unbiasedLocalMax ⟨3, 3⟩ exDt1 4 (1, 1) = true ∧ 0 < exDt1 (1, 1) := by
  decide

/-- C1 (amended): for an in-bounds voxel `c`, `find_peaks` returns `c` iff
`dt c > 0` and `dt c` is at least the *biased* field `dt + 2*(~im)` over the
whole in-bounds disk neighbourhood; consequently every returned peak is also
a maximum of the unbiased field there (that direction of the original claim
holds), but the converse fails — see the counterexample. -/
theorem find_peaks_biased_spec {α : Type} [LinearOrderedCommRing α]
    (g : Grid) (dt : Cell → α) (r : ℕ) (c : Cell) (hc : c ∈ cellsList g) :
    (c ∈ find_peaks g dt r ↔
      (0 < dt c ∧ ∀ y ∈ diskNbhd g r c, biased dt y ≤ dt c)) ∧
    (c ∈ find_peaks g dt r → ∀ y ∈ diskNbhd g r c, dt y ≤ dt c) := by
  have hself : c ∈ diskNbhd g r c := by
    refine List.mem_filter.mpr ⟨hc, ?_⟩
    simp only [decide_eq_true_eq, sub_self]
    simp only [ne_eq, OfNat.ofNat_ne_zero, not_false_eq_true, zero_pow,
      add_zero]
    exact sq_nonneg ((r : ℤ))
  have hmem : c ∈ find_peaks g dt r ↔ dt c = mxAt g dt r c ∧ 0 < dt c := by
    constructor
    · intro h
      have h2 := (List.mem_filter.mp h).2
      simp only [Bool.and_eq_true, decide_eq_true_eq] at h2
      exact h2
    · intro h
      refine List.mem_filter.mpr ⟨hc, ?_⟩
      simp only [Bool.and_eq_true, decide_eq_true_eq]
      exact h
  have hfwd : ∀ y ∈ diskNbhd g r c, biased dt y ≤ mxAt g dt r c := by
    intro y hy
    exact le_maxQ (List.mem_map.mpr ⟨y, hy, rfl⟩)
  have hdtle : ∀ y, dt y ≤ biased dt y := by
    intro y
    by_cases hy : 0 < dt y
    · rw [biased, if_pos hy]
    · rw [biased, if_neg hy]
      exact le_add_of_nonneg_right (by norm_num)
  constructor
  · constructor
    · intro h
      rcases hmem.mp h with ⟨heq, hpos⟩
      exact ⟨hpos, fun y hy => heq ▸ hfwd y hy⟩
    · rintro ⟨hpos, hall⟩
      refine hmem.mpr ⟨le_antisymm ?_ ?_, hpos⟩
      · have : biased dt c ≤ mxAt g dt r c := hfwd c hself
        rw [biased, if_pos hpos] at this
        exact this
      · refine maxQ_le ?_ ?_
        · intro hnil
          rw [List.map_eq_nil_iff] at hnil
          rw [hnil] at hself
          cases hself
        · intro x hx
          rcases List.mem_map.mp hx with ⟨y, hy, rfl⟩
          exact hall y hy
  · intro h y hy
    rcases hmem.mp h with ⟨heq, _⟩
    exact le_trans (hdtle y) (heq ▸ hfwd y hy)

/-- C1 (witness): on a 3×3 field with one pore voxel of depth 5, the amended
characterisation certifies the voxel as a returned peak. -/
theorem find_peaks_biased_spec_w : (1, 1) ∈ find_peaks ⟨3, 3⟩ exDtW 4 :=
  (find_peaks_biased_spec ⟨3, 3⟩ exDtW 4 (1, 1) (by decide)).1.mpr (by decide)

/-- C2: the growth loop of `trim_saddle_points`, run on any blob with any
dilation operator, behaves exactly as claimed: if the first terminal
iteration `k ≤ 10` has the trial mask equal to the original blob, the blob is
kept unchanged; if it has the trial mask disjoint from the original blob
(checked second), the blob is cleared to empty; and if no iteration up to the
cap 10 is terminal, the blob is kept as-is. -/
theorem trim_saddle_blob_terminal {ι α : Type} [DecidableEq ι]
    [LinearOrderedCommRing α] (cells : List ι) (dt : ι → α)
    (dil : List ι → List ι) (orig : List ι) :
    (∀ k, 1 ≤ k → k ≤ 10 →
      (∀ j, 1 ≤ j → j < k → blobHit cells dt dil orig j = none) →
      (blobHit cells dt dil orig k = some true →
        saddleLoop cells dt dil orig 10 orig = orig) ∧
      (blobHit cells dt dil orig k = some false →
        saddleLoop cells dt dil orig 10 orig = [])) ∧
    ((∀ j, 1 ≤ j → j ≤ 10 → blobHit cells dt dil orig j = none) →
      saddleLoop cells dt dil orig 10 orig = orig) := by
  constructor
  · intro k hk1 hk10 hpre
    have hshift := saddleLoop_shift cells dt dil orig (k - 1) (10 - (k - 1)) 0
      (fun i hi1 hi2 => hpre i (by omega) (by omega))
    rw [show (k - 1) + (10 - (k - 1)) = 10 by omega] at hshift
    rw [Function.iterate_zero_apply, Nat.zero_add] at hshift
    rw [show 10 - (k - 1) = (10 - k) + 1 by omega] at hshift
    constructor
    · intro hhit
      rw [hshift]
      exact saddleLoop_hit_true cells dt dil orig
        (by rw [show (k - 1) + 1 = k by omega]; exact hhit)
    · intro hhit
      rw [hshift]
      exact saddleLoop_hit_false cells dt dil orig
        (by rw [show (k - 1) + 1 = k by omega]; exact hhit)
  · intro hnone
    have hshift := saddleLoop_shift cells dt dil orig 10 0 0
      (fun i hi1 hi2 => hnone i (by omega) (by omega))
    rw [Function.iterate_zero_apply] at hshift
    simp only [Nat.add_zero, Nat.zero_add] at hshift
    exact hshift

/-- C2 (witness): a two-cell blob environment whose first iteration is
terminal with an equal trial mask; the loop keeps the blob. -/
theorem trim_saddle_blob_terminal_w :
    saddleLoop [0, 1] exDtL exDilL [0] 10 [0] = [0] ∧
      blobHit [0, 1] exDtL exDilL [0] 1 = some true :=
  ⟨((trim_saddle_blob_terminal [0, 1] exDtL exDilL [0]).1 1 (by omega)
      (by omega) (fun j hj1 hj2 => (Nat.not_lt.mpr hj1 hj2).elim)).1
      (by decide),
    by decide⟩

/-- C3 (counterexample): the per-blob step does write to another blob's
voxels.  On a 1×4 image with two single-voxel blobs, processing the first
blob writes its whole padded window (the entire image) and erases the second
blob's voxel, although both blobs are kept by their growth loops. -/
theorem saddle_step_clobbers :
    componentsOf ⟨1, 4⟩ off4 exP3 = [[(0, 0)], [(0, 3)]] ∧
      decide ((0, 3) ∈ exP3) = true ∧
      decide ((0, 3) ∈ saddle_step ⟨1, 4⟩ exDt3 [(0, 0)] exP3) = false := by
  decide

/-- C3 (amended): the per-blob step of `trim_saddle_points` writes back the
blob's entire padded bounding window, so the voxels it leaves unchanged are
exactly those outside that window; another blob's voxels inside the processed
blob's padded window can be overwritten (see the counterexample), even though
the blobs themselves are disjoint. -/
theorem saddle_step_frame {α : Type} [LinearOrderedCommRing α] (g : Grid)
    (dt : Cell → α) (comp m : List Cell) (c : Cell)
    (hcomp : ∀ x ∈ comp, x.1 < g.rows ∧ x.2 < g.cols)
    (hout : inBboxB (saddle_window g comp) c = false) :
    (c ∈ saddle_step g dt comp m ↔ c ∈ m) := by
  constructor
  · intro h
    rcases List.mem_append.mp h with h1 | h2
    · exact (List.mem_filter.mp h1).1
    · exfalso
      rcases saddleLoop_result (windowCells g (saddle_window g comp)) dt
        (dilate_cube3 g (saddle_window g comp)) comp 10 comp with hr | hr
      · rw [hr] at h2
        have := comp_mem_window g h2 (hcomp c h2)
        rw [hout] at this
        cases this
      · rw [hr] at h2
        cases h2
  · intro h
    refine List.mem_append.mpr (Or.inl ?_)
    refine List.mem_filter.mpr ⟨h, ?_⟩
    rw [hout]
    rfl

/-- C3 (witness): on a 1×20 image, a cell at column 15 lies outside the
padded window of the blob at column 0, so the per-blob step preserves it. -/
theorem saddle_step_frame_w :
    ((0, 15) ∈ saddle_step ⟨1, 20⟩ exDt3 [(0, 0)] [(0, 0), (0, 15)] ↔
      (0, 15) ∈ ([(0, 0), (0, 15)] : List Cell)) :=
  saddle_step_frame ⟨1, 20⟩ exDt3 [(0, 0)] [(0, 0), (0, 15)] (0, 15)
    (by decide) (by decide)

/-- C4 (counterexample): an entirely-false domain mask does not produce an
all-zero marker image; the pipeline fails.  On a 3×3 all-solid field,
`find_peaks` returns no peaks, and `trim_nearby_peaks` then reaches
`sp.vstack` with an empty centroid list and raises, so `snow` propagates the
error instead of completing. -/
theorem snow_zero_peaks_error :
    snow ⟨3, 3⟩ (fun _ => (0 : ℤ)) =
        .error "need at least one array to concatenate" ∧
      find_peaks ⟨3, 3⟩ (fun _ => (0 : ℤ)) 4 = [] := by
  constructor
  · rfl
  · rfl

/-- C4 (amended): with zero labelled peaks, `trim_nearby_peaks` does not
short-circuit: it always reaches the centroid-stacking step, which fails on
the empty list; the zero-peak case is an error, not an empty result. -/
theorem trim_nearby_empty_error {α : Type} [LinearOrderedCommRing α]
    (g : Grid) (p : List Cell) (dt : Cell → α)
    (h : componentsOf g off8 p = []) :
    trim_nearby_peaks g p dt =
      .error "need at least one array to concatenate" := by
  rw [trim_nearby_peaks, h]

/-- C4 (witness): the empty mask on a 3×3 grid has no labelled components,
so `trim_nearby_peaks` fails on it. -/
theorem trim_nearby_empty_error_w :
    trim_nearby_peaks ⟨3, 3⟩ [] (fun _ => (0 : ℤ)) =
      .error "need at least one array to concatenate" :=
  trim_nearby_empty_error ⟨3, 3⟩ [] (fun _ => (0 : ℤ)) (by decide)

/-- C5 (counterexample): the merge-trigger invariant does not hold after one
pass.  On a 1×10 image with peaks of depths 20, 1, 21 at columns 0, 5, 9, the
middle peak is every peak's nearest neighbour and is dropped; the two
survivors are 9 apart, closer than both their distances to solid (20 and 21),
so they still satisfy the merge trigger. -/
theorem trim_nearby_trigger_survives :
    trim_nearby_peaks ⟨1, 10⟩ exP8 exDt8 = .ok [(0, 0), (0, 9)] ∧
      survivorsViolate ⟨1, 10⟩ exDt8 [(0, 0), (0, 9)] = true :=
  ⟨rfl, by decide⟩

/-- C5 (amended): after one pass of `trim_nearby_peaks`, every *contested*
centroid (nearest-neighbour distance below its own distance to solid) has the
peak selected by the tie-break placed in the removal set, and that blob's
voxels are cleared from the output; pairs that were not nearest neighbours
are never examined, so the spec's invariant can still fail for survivors
(see the counterexample). -/
theorem trim_nearby_drops_contested {α : Type} [LinearOrderedCommRing α]
    (g : Grid) (p : List Cell) (dt : Cell → α) (m : List Cell) (i : ℕ)
    (hok : trim_nearby_peaks g p dt = .ok m)
    (hi : i ∈ hitsOf (crdsOf g p) (dtsOf g p dt)) :
    dropChoice (crdsOf g p) (dtsOf g p dt) i ∈
        dropSetOf (crdsOf g p) (dtsOf g p dt) ∧
      ∀ c ∈ (componentsOf g off8 p).getD
          (dropChoice (crdsOf g p) (dtsOf g p dt) i) [],
        c ∉ m := by
  have hdrop : dropChoice (crdsOf g p) (dtsOf g p dt) i ∈
      dropSetOf (crdsOf g p) (dtsOf g p dt) :=
    List.mem_dedup.mpr (List.mem_map.mpr ⟨i, hi, rfl⟩)
  refine ⟨hdrop, ?_⟩
  intro c hcmem hcm
  rw [trim_nearby_ok_eq hok] at hcm
  have h2 := (List.mem_filter.mp hcm).2
  have hany : ((dropSetOf (crdsOf g p) (dtsOf g p dt)).any fun iD =>
      inBboxB (bboxOf ((componentsOf g off8 p).getD iD [])) c) = true := by
    refine List.any_eq_true.mpr ?_
    exact ⟨dropChoice (crdsOf g p) (dtsOf g p dt) i, hdrop, mem_bboxOf hcmem⟩
  rw [hany] at h2
  simp at h2

/-- C5 (witness): on the counterexample input, centroid 0 is contested; its
tie-break selects peak 1, which lands in the removal set and whose voxel
(0,5) is cleared from the output. -/
theorem trim_nearby_drops_contested_w :
    dropChoice (crdsOf ⟨1, 10⟩ exP8) (dtsOf ⟨1, 10⟩ exP8 exDt8) 0 ∈
        dropSetOf (crdsOf ⟨1, 10⟩ exP8) (dtsOf ⟨1, 10⟩ exP8 exDt8) ∧
      (0, 5) ∉ ([(0, 0), (0, 9)] : List Cell) :=
  ⟨(trim_nearby_drops_contested ⟨1, 10⟩ exP8 exDt8 [(0, 0), (0, 9)] 0
      (by rfl) (by decide)).1,
    (trim_nearby_drops_contested ⟨1, 10⟩ exP8 exDt8 [(0, 0), (0, 9)] 0
      (by rfl) (by decide)).2 (0, 5) (by decide)⟩

/-- C6 (counterexample): the tie-break is not a symmetric function of the
unordered pair.  Two mutually nearest single-voxel peaks 3 apart with equal
distance-to-solid 5 are both contested (9 < 25); the check triggered at
peak 0 marks peak 1, while the check triggered at peak 1 marks peak 0 — a
different peak of the pair depending on which side triggered — and hence
both peaks end up in the removal set. -/
theorem drop_choice_tie_asym :
    nnOf [(0, 0), (0, 3)] 0 = some (1, 9) ∧
      nnOf [(0, 0), (0, 3)] 1 = some (0, 9) ∧
      hitsOf [(0, 0), (0, 3)] [(5 : ℤ), 5] = [0, 1] ∧
      dropChoice [(0, 0), (0, 3)] [(5 : ℤ), 5] 0 = 1 ∧
      dropChoice [(0, 0), (0, 3)] [(5 : ℤ), 5] 1 = 0 ∧
      dropSetOf [(0, 0), (0, 3)] [(5 : ℤ), 5] = [1, 0] := by
  decide

/-- C6 (amended): for a contested pair of mutual nearest neighbours `i`, `j`,
the check at `i` marks `i` exactly when `i`'s distance-to-solid is strictly
smaller than `j`'s (else it marks `j`); when the two distances differ this
decision is symmetric — both directions mark the same peak — but on a tie the
two directions mark different peaks and then both are removed.  The removal
set itself is the order-independent union over contested centroids. -/
theorem drop_choice_pair_spec {α : Type} [LinearOrderedCommRing α]
    (crds : List Cell) (dts : List α) (i j : ℕ) (d2i d2j : ℤ)
    (hij : nnOf crds i = some (j, d2i)) (hji : nnOf crds j = some (i, d2j)) :
    (dropChoice crds dts i = if dts.getD i 0 < dts.getD j 0 then i else j) ∧
    (dts.getD i 0 ≠ dts.getD j 0 →
      dropChoice crds dts i = dropChoice crds dts j) ∧
    (dts.getD i 0 = dts.getD j 0 →
      dropChoice crds dts i = j ∧ dropChoice crds dts j = i ∧
      (i ∈ hitsOf crds dts → j ∈ hitsOf crds dts →
        i ∈ dropSetOf crds dts ∧ j ∈ dropSetOf crds dts)) := by
  have hei : dropChoice crds dts i =
      if dts.getD i 0 < dts.getD j 0 then i else j := by
    rw [dropChoice, hij]
  have hej : dropChoice crds dts j =
      if dts.getD j 0 < dts.getD i 0 then j else i := by
    rw [dropChoice, hji]
  refine ⟨hei, ?_, ?_⟩
  · intro hne
    by_cases hlt : dts.getD i 0 < dts.getD j 0
    · rw [hei, if_pos hlt, hej, if_neg (asymm hlt)]
    · have hlt2 : dts.getD j 0 < dts.getD i 0 :=
        lt_of_le_of_ne (not_lt.mp hlt) (fun h => hne h.symm)
      rw [hei, if_neg hlt, hej, if_pos hlt2]
  · intro heq
    have h1 : dropChoice crds dts i = j := by
      rw [hei, if_neg (heq ▸ lt_irrefl _)]
    have h2 : dropChoice crds dts j = i := by
      rw [hej, if_neg (heq ▸ lt_irrefl _)]
    refine ⟨h1, h2, fun hi hj => ⟨?_, ?_⟩⟩
    · exact List.mem_dedup.mpr (List.mem_map.mpr ⟨j, hj, h2⟩)
    · exact List.mem_dedup.mpr (List.mem_map.mpr ⟨i, hi, h1⟩)

/-- C6 (witness): with distances-to-solid 5 and 7 the pair decision is
symmetric — both directions mark the same peak. -/
theorem drop_choice_pair_spec_w :
    dropChoice [(0, 0), (0, 3)] [(5 : ℤ), 7] 0 =
      dropChoice [(0, 0), (0, 3)] [(5 : ℤ), 7] 1 :=
  (drop_choice_pair_spec [(0, 0), (0, 3)] [(5 : ℤ), 7] 0 1 9 9 (by decide)
    (by decide)).2.1 (by decide)

set_option maxHeartbeats 4000000 in
set_option maxRecDepth 10000 in
/-- C7 (counterexample): the blob count is not monotone across the stages.
On `exDt7`, `find_peaks` yields 2 blobs (a 27-voxel ridge and a single
voxel), but `trim_saddle_points` keeps both while its second write-back
clears the middle of the ridge, leaving 3 connected blobs — the count
increased from 2 to 3. -/
theorem trim_saddle_count_increases :
    (componentsOf exG7 off8 (find_peaks exG7 exDt7 4)).length = 2 ∧
      (componentsOf exG7 off8
        (trim_saddle_points exG7 exDt7 (find_peaks exG7 exDt7 4))).length =
        3 := by
  decide

/-- C7 (amended): what is monotone across the stages is the voxel set, not
the blob count: every voxel kept by `trim_saddle_points` was set in its
input, and every voxel kept by a successful `trim_nearby_peaks` was set in
its input; but the window write-back can split a blob of the surviving set,
so the connected-component count can increase (see the counterexample). -/
theorem trim_stages_subset {α : Type} [LinearOrderedCommRing α] (g : Grid)
    (dt : Cell → α) (p m : List Cell) (c : Cell) :
    (c ∈ trim_saddle_points g dt p → c ∈ p) ∧
    (trim_nearby_peaks g p dt = .ok m → c ∈ m → c ∈ p) := by
  constructor
  · exact fun h => trim_saddle_subset h
  · intro hok hc
    rw [trim_nearby_ok_eq hok] at hc
    exact (List.mem_filter.mp hc).1

/-- C7 (witness): the single surviving peak of the 3×3 single-pore image is
a voxel of each stage's input. -/
theorem trim_stages_subset_w :
    (1, 1) ∈ trim_saddle_points ⟨3, 3⟩ exDtW [(1, 1)] ∧
      (1, 1) ∈ ([(1, 1)] : List Cell) :=
  ⟨by decide,
    (trim_stages_subset ⟨3, 3⟩ exDtW [(1, 1)] [(1, 1)] (1, 1)).1 (by decide)⟩

/-- C8 (counterexample): `trim_nearby_peaks` is not idempotent.  On the
1×10 three-peak input the first pass removes only the middle peak, leaving
two survivors that still satisfy the merge trigger, and a second pass on
that output removes one of them. -/
theorem trim_nearby_not_idempotent :
    trim_nearby_peaks ⟨1, 10⟩ exP8 exDt8 = .ok [(0, 0), (0, 9)] ∧
      trim_nearby_peaks ⟨1, 10⟩ [(0, 0), (0, 9)] exDt8 = .ok [(0, 9)] ∧
      ([(0, 9)] : List Cell) ≠ [(0, 0), (0, 9)] :=
  ⟨rfl, rfl, by decide⟩

/-- C8 (amended): a pass of `trim_nearby_peaks` is a no-op exactly on masks
whose drop set is empty (no contested centroid); re-running it on its own
output is a no-op only when that output has no contested pair, which one
pass does not guarantee (see the counterexample). -/
theorem trim_nearby_noop_spec {α : Type} [LinearOrderedCommRing α]
    (g : Grid) (p : List Cell) (dt : Cell → α)
    (hne : componentsOf g off8 p ≠ [])
    (hdrop : dropSetOf (crdsOf g p) (dtsOf g p dt) = []) :
    trim_nearby_peaks g p dt = .ok p := by
  rw [trim_nearby_eq_filter hne, hdrop]
  simp

/-- C8 (witness): the single-peak mask has no contested centroid, so the
pass returns it unchanged. -/
theorem trim_nearby_noop_spec_w :
    trim_nearby_peaks ⟨3, 3⟩ [(1, 1)] exDtW = .ok [(1, 1)] :=
  trim_nearby_noop_spec ⟨3, 3⟩ [(1, 1)] exDtW (by decide) (by decide)

/-- C9: every voxel marked by `find_peaks`, every voxel still set after
`trim_saddle_points`, and every voxel still set after a successful
`trim_nearby_peaks` has a strictly positive field value — a peak is never
located on solid at any stage of the pipeline. -/
theorem peaks_positive_all_stages {α : Type} [LinearOrderedCommRing α]
    (g : Grid) (dt : Cell → α) (m : List Cell) (c : Cell)
    (hok : trim_nearby_peaks g (trim_saddle_points g dt (find_peaks g dt 4))
      dt = .ok m) :
    (c ∈ find_peaks g dt 4 → 0 < dt c) ∧
    (c ∈ trim_saddle_points g dt (find_peaks g dt 4) → 0 < dt c) ∧
    (c ∈ m → 0 < dt c) := by
  have hfp : ∀ x, x ∈ find_peaks g dt 4 → 0 < dt x := by
    intro x hx
    have h2 := (List.mem_filter.mp hx).2
    simp only [Bool.and_eq_true, decide_eq_true_eq] at h2
    exact h2.2
  refine ⟨hfp c, fun h => hfp c (trim_saddle_subset h), fun h => ?_⟩
  rw [trim_nearby_ok_eq hok] at h
  exact hfp c (trim_saddle_subset (List.mem_filter.mp h).1)

/-- C9 (witness): on the 3×3 single-pore image the pipeline succeeds and the
surviving peak voxel has positive field value. -/
theorem peaks_positive_all_stages_w : (0 : ℤ) < exDtW (1, 1) :=
  (peaks_positive_all_stages ⟨3, 3⟩ exDtW [(1, 1)] (1, 1) (by rfl)).1
    (by decide)

/-- C10 (counterexample): removal clears more than the removed blobs.  On
`exP10` only blob 0 (the diagonal) is in the removal set, yet clearing its
bounding box — the whole 5×5 image — also erases the kept blob's voxel
(0,4): the output is empty. -/
theorem trim_nearby_bbox_clobbers :
    componentsOf ⟨5, 5⟩ off8 exP10 =
        [[(0, 0), (1, 1), (2, 2), (3, 3), (4, 4)], [(0, 4)]] ∧
      dropSetOf (crdsOf ⟨5, 5⟩ exP10) (dtsOf ⟨5, 5⟩ exP10 exDt10) = [0] ∧
      (0, 4) ∈ exP10 ∧
      trim_nearby_peaks ⟨5, 5⟩ exP10 exDt10 = .ok [] :=
  ⟨by decide, by decide, by decide, rfl⟩

/-- C10 (amended): the removal step clears the removed blobs' bounding
boxes, so a blob keeps its voxels only when it is disjoint from every
removed blob's bounding box; under that condition all its voxels survive. -/
theorem trim_nearby_kept_blobs {α : Type} [LinearOrderedCommRing α]
    (g : Grid) (p : List Cell) (dt : Cell → α) (m : List Cell)
    (compJ : List Cell) (hj : compJ ∈ componentsOf g off8 p)
    (hok : trim_nearby_peaks g p dt = .ok m)
    (hdisj : ∀ i ∈ dropSetOf (crdsOf g p) (dtsOf g p dt), ∀ c ∈ compJ,
      inBboxB (bboxOf ((componentsOf g off8 p).getD i [])) c = false) :
    ∀ c ∈ compJ, c ∈ m := by
  intro c hc
  rw [trim_nearby_ok_eq hok]
  refine List.mem_filter.mpr ⟨componentsOf_subset hj hc, ?_⟩
  have hany : ((dropSetOf (crdsOf g p) (dtsOf g p dt)).any fun iD =>
      inBboxB (bboxOf ((componentsOf g off8 p).getD iD [])) c) = false := by
    rw [List.any_eq_false]
    intro i hi
    rw [hdisj i hi c hc]
    exact fun h => (Bool.false_ne_true h)
  rw [hany]
  rfl

/-- C10 (witness): on the 1×10 input the kept blob at (0,0) is disjoint from
the single removed blob's bounding box, so its voxel survives the pass. -/
theorem trim_nearby_kept_blobs_w :
    (0, 0) ∈ ([(0, 0), (0, 9)] : List Cell) :=
  trim_nearby_kept_blobs ⟨1, 10⟩ exP8 exDt8 [(0, 0), (0, 9)] [(0, 0)]
    (by decide) (by rfl)
    (by decide) (0, 0) (by decide)
